import Mathlib

/-!
Shallow embedding of `src/translate.py`, a MySQL content-translation
pipeline.  HTML documents are modelled as parse forests (`HDoc`), the
Microsoft-translator HTTP endpoint as an attempt-indexed response oracle
(`Resp`), and the database as explicit state: tables carry a schema
column list and rows given as association lists from column name to
nullable value.  Parsing and serialisation by BeautifulSoup are treated
as the identity on the tree representation; the per-row translation call
inside `translate_and_update` is abstracted as an oracle returning
either a translated string or a raised exception.
-/

/-- Python `str.strip()`: drop whitespace from both ends.  Used wherever the
source calls `.strip()`; defined directly on the character list so that it
evaluates in the kernel. -/
def pyStrip (s : String) : String :=
  ⟨((s.data.dropWhile Char.isWhitespace).reverse.dropWhile Char.isWhitespace).reverse⟩

/-- A BeautifulSoup parse forest: the `contents` sequence of a soup or of an
element.  `textCons s rest` is a `NavigableString` child followed by its later
siblings; `elemCons name attrs children rest` is a tag child followed by its
later siblings.  This is the sibling-list encoding of the DOM trees that
`extract_text_nodes` and `rebuild_html_from_nodes` (src/translate.py lines
171-209) traverse. -/
inductive HDoc where
  | nil
  | textCons (s : String) (rest : HDoc)
  | elemCons (name : String) (attrs : List (String × String)) (children : HDoc) (rest : HDoc)
deriving Repr, DecidableEq

/-- One extracted text node, as built by `extract_text_nodes`
(src/translate.py lines 180-186): the stripped text, the parent tag name, the
parent attributes and the positional path. -/
structure TextNode where
  text : String
  parent_tag : String
  attrs : List (String × String)
  path : String
deriving Repr, DecidableEq

/-- The `child_path` format string of src/translate.py line 177:
`f"{path}/{el.name}[{idx}]"`. -/
def childPath (path name : String) (idx : Nat) : String :=
  path ++ "/" ++ name ++ "[" ++ toString idx ++ "]"

/-- The recursive worker `recurse` of `extract_text_nodes` (src/translate.py
lines 175-188): walk the contents of an element with name `name`, attributes
`attrs` and path `path`, starting at child index `idx`; emit a `TextNode` for
every `NavigableString` child that is non-empty after stripping, and recurse
into element children. -/
def extractFrom (name : String) (attrs : List (String × String)) (path : String)
    (idx : Nat) : HDoc → List TextNode
  | .nil => []
  | .textCons s rest =>
      (if pyStrip s ≠ "" then
        [{ text := pyStrip s, parent_tag := name, attrs := attrs,
           path := childPath path name idx }]
       else []) ++ extractFrom name attrs path (idx + 1) rest
  | .elemCons n2 a2 c rest =>
      extractFrom n2 a2 (childPath path name idx) 0 c
        ++ extractFrom name attrs path (idx + 1) rest

/-- Embedding of `extract_text_nodes` (src/translate.py lines 171-191).  The root soup
object has name `[document]` and no attributes; the initial path is `""`. -/
def extract_text_nodes (doc : HDoc) : List TextNode :=
  extractFrom "[document]" [] "" 0 doc

/-- The stripped values of the extractable leaves of a document, in traversal
order; equal to the `text` fields produced by `extract_text_nodes`. -/
def leafTexts : HDoc → List String
  | .nil => []
  | .textCons s rest =>
      (if pyStrip s ≠ "" then [pyStrip s] else []) ++ leafTexts rest
  | .elemCons _ _ c rest => leafTexts c ++ leafTexts rest

/-- The recursive worker `recurse_replace` of `rebuild_html_from_nodes`
(src/translate.py lines 198-206) with the mutable index made explicit: walk
the forest, and for each `NavigableString` child that is non-empty after
stripping, replace it by `translated_texts[idx]` when `idx` is still in
bounds, incrementing `idx`; return the rewritten forest and the final index. -/
def rebuildDoc (ts : List String) (idx : Nat) : HDoc → HDoc × Nat
  | .nil => (.nil, idx)
  | .textCons s rest =>
      if pyStrip s ≠ "" ∧ idx < ts.length then
        let r := rebuildDoc ts (idx + 1) rest
        (.textCons (ts.getD idx "") r.1, r.2)
      else
        let r := rebuildDoc ts idx rest
        (.textCons s r.1, r.2)
  | .elemCons n a c rest =>
      let rc := rebuildDoc ts idx c
      let rr := rebuildDoc ts rc.2 rest
      (.elemCons n a rc.1 rr.1, rr.2)

/-- Embedding of `rebuild_html_from_nodes` (src/translate.py lines 194-209): re-walk the
document and substitute the translated texts positionally. -/
def rebuild_html_from_nodes (doc : HDoc) (translated_texts : List String) : HDoc :=
  (rebuildDoc translated_texts 0 doc).1

/-- A document with every extractable leaf (text node that is non-empty after
stripping) replaced by its stripped value.  This is what the round trip
through extraction and rebuilding actually produces. -/
def stripLeaves : HDoc → HDoc
  | .nil => .nil
  | .textCons s rest =>
      .textCons (if pyStrip s ≠ "" then pyStrip s else s) (stripLeaves rest)
  | .elemCons n a c rest => .elemCons n a (stripLeaves c) (stripLeaves rest)

/-- True when every text node of the document carries no surrounding
whitespace (it equals its stripped value) or is whitespace-only.  On such
documents stripping the leaves is the identity. -/
def leavesStripped : HDoc → Bool
  | .nil => true
  | .textCons s rest =>
      (pyStrip s == s || pyStrip s == "") && leavesStripped rest
  | .elemCons _ _ c rest => leavesStripped c && leavesStripped rest

/-- Modelled from the spec (section 4.1, `reconstruct`): replace the *i*-th
non-empty text-content child, in traversal order, by the *i*-th supplied
value while values remain, and leave every later leaf at its original text;
returns the rewritten forest together with the unconsumed values.  This is
the reference description that `rebuildDoc` is compared against. -/
def substLeavesSpec (vs : List String) : HDoc → HDoc × List String
  | .nil => (.nil, vs)
  | .textCons s rest =>
      if pyStrip s ≠ "" then
        match vs with
        | [] =>
            let r := substLeavesSpec [] rest
            (.textCons s r.1, r.2)
        | v :: vs2 =>
            let r := substLeavesSpec vs2 rest
            (.textCons v r.1, r.2)
      else
        let r := substLeavesSpec vs rest
        (.textCons s r.1, r.2)
  | .elemCons n a c rest =>
      let rc := substLeavesSpec vs c
      let rr := substLeavesSpec rc.2 rest
      (.elemCons n a rc.1 rr.1, rr.2)

/-- Embedding of `soup.find()` of src/translate.py line 42: whether the parse result
contains at least one tag.  A tag anywhere in the forest is reachable from a
top-level tag, so checking the top level of each sibling chain suffices. -/
def hasElement : HDoc → Bool
  | .nil => false
  | .textCons _ rest => hasElement rest
  | .elemCons _ _ _ _ => true

/-- Embedding of `is_html` (src/translate.py lines 32-45), with the BeautifulSoup parser
abstracted as `parse`: absent (`None`) or empty text is never HTML; text
containing both `<` and `>` is HTML exactly when it parses to at least one
tag; all other text is plain. -/
def is_html (parse : String → HDoc) (text : Option String) : Bool :=
  match text with
  | none => false
  | some t =>
      if t = "" then false
      else if t.data.contains '<' && t.data.contains '>' then hasElement (parse t)
      else false

/-- One outcome of `requests.post` inside `translate_batch` (src/translate.py
lines 240-253): either an HTTP response with a status code and a parsed JSON
body, or a transport exception.  Each body item is the `translations` list of
that item (defaulting to `[]` when missing), and each translation object is
its optional `text` field. -/
inductive Resp where
  | http (status : Nat) (items : List (List (Option String)))
  | exn (msg : String)
deriving Repr, DecidableEq

/-- Whether a response is a success, i.e. `r.status_code == 200`
(src/translate.py line 241). -/
def isSuccess : Resp → Bool
  | .http status _ => status == 200
  | .exn _ => false

/-- The output built for one body item on a 200 response (src/translate.py
lines 244-246): `tr[0].get("text", "") if tr else ""`. -/
def firstTranslationText : List (Option String) → String
  | [] => ""
  | t :: _ => t.getD ""

/-- The retry loop of `TranslatorAPI_MIC.translate_batch` (src/translate.py
lines 237-258), with the network abstracted as the attempt-indexed oracle
`resp`: while `attempt < retry`, issue one POST; on a 200 response return the
per-item first translations; on any other status or an exception, sleep and
try again; after exhausting the budget return `n` empty strings.  The second
component counts the POST calls performed (`attempt + 1` on success, `retry`
on exhaustion). -/
def translateAttempts (resp : Nat → Resp) (retry n attempt : Nat) : List String × Nat :=
  if attempt < retry then
    match resp attempt with
    | .http status items =>
        if status = 200 then (items.map firstTranslationText, attempt + 1)
        else translateAttempts resp retry n (attempt + 1)
    | .exn _ => translateAttempts resp retry n (attempt + 1)
  else (List.replicate n "", attempt)
termination_by retry - attempt

/-- Embedding of `translate_batch` together with its network-call count: the guard
`if not texts: return []` (src/translate.py lines 224-225) answers the empty
list with no POST at all; otherwise the retry loop runs. -/
def translate_batchN (resp : Nat → Resp) (retry : Nat) (texts : List String) :
    List String × Nat :=
  if texts.isEmpty then ([], 0) else translateAttempts resp retry texts.length 0

/-- The return value of `TranslatorAPI_MIC.translate_batch`
(src/translate.py lines 223-258). -/
def translate_batch (resp : Nat → Resp) (retry : Nat) (texts : List String) :
    List String :=
  (translate_batchN resp retry texts).1

/-- One schema column as reported by `list_table_columns` (src/translate.py
lines 127-138): `COLUMN_NAME, DATA_TYPE, COLUMN_KEY` in ordinal position
order. -/
structure TCol where
  name : String
  dtype : String
  key : String
deriving Repr, DecidableEq

/-- A table row: an association list from column name to nullable value.
A column absent from the list reads as SQL NULL. -/
abbrev Row := List (String × Option String)

/-- One database table: its schema columns and its rows in retrieval order. -/
structure Table where
  cols : List TCol
  rows : List Row
deriving Repr, DecidableEq

/-- Read one cell; missing columns read as NULL. -/
def getCell : Row → String → Option String
  | [], _ => none
  | (k, v) :: rest, c => if k = c then v else getCell rest c

/-- Write one cell, inserting the column if the row does not carry it yet. -/
def setCell : Row → String → Option String → Row
  | [], c, v => [(c, v)]
  | (k, w) :: rest, c, v =>
      if k = c then (c, v) :: rest else (k, w) :: setCell rest c v

/-- SQL equality `col = %s` between two nullable values: NULL compares equal
to nothing, not even to NULL. -/
def cellEq : Option String → Option String → Bool
  | some a, some b => a == b
  | _, _ => false

/-- The pending-row predicate of the COUNT and SELECT statements in
`translate_and_update` (src/translate.py lines 330-336 and 347-354):
source non-NULL and non-empty, destination NULL or empty. -/
def isPendingRow (col target : String) (r : Row) : Bool :=
  (match getCell r col with
   | none => false
   | some s => s != "") &&
  (match getCell r target with
   | none => true
   | some s => s == "")

/-- Embedding of `quote_ident` (src/translate.py lines 59-60). -/
def quote_ident (name : String) : String :=
  "`" ++ name.replace "`" "``" ++ "`"

/-- A single executed UPDATE statement (src/translate.py lines 390-395):
`UPDATE table SET target = %s , col = %s WHERE pk = %s`, recorded as its
SET assignments in order and its WHERE equality. -/
structure UpdStmt where
  table : String
  sets : List (String × String)
  whereCol : String
  whereVal : Option String
deriving Repr, DecidableEq

/-- The per-(table, column) ledger entry `{"total": .., "ok": .., "fail": ..}`
(src/translate.py line 342). -/
structure Counters where
  total : Nat
  ok : Nat
  fail : Nat
deriving Repr, DecidableEq

/-- State threaded through the per-column page loop of
`translate_and_update`: the rows of the table being updated, the ok and fail
counters, and three observation traces — the UPDATE statements executed, the
pages fetched (offset and result set), and the rows processed by the
write-back loop (their primary-key values, in processing order). -/
structure ColRun where
  rows : List Row
  ok : Nat
  fail : Nat
  upds : List UpdStmt
  pages : List (Nat × List Row)
  rowTrace : List (Option String)
deriving Repr, DecidableEq

/-- The body of the write-back loop for one zipped row (src/translate.py
lines 387-402): when the translation is non-empty and non-blank, execute one
UPDATE setting both the destination and the source column to the translated
value for every row whose primary key equals `rid`, and count ok; otherwise
modify nothing and count fail. -/
def writeback_row (table pk col target : String) (st : ColRun)
    (rid : Option String) (trv : String) : ColRun :=
  if trv ≠ "" ∧ pyStrip trv ≠ "" then
    { st with
      rows := st.rows.map (fun r =>
        if cellEq (getCell r pk) rid then
          setCell (setCell r target (some trv)) col (some trv)
        else r),
      upds := st.upds ++ [{ table := table, sets := [(target, trv), (col, trv)],
                            whereCol := pk, whereVal := rid }],
      ok := st.ok + 1,
      rowTrace := st.rowTrace ++ [rid] }
  else
    { st with fail := st.fail + 1, rowTrace := st.rowTrace ++ [rid] }

/-- The write-back loop `for rid, src, tr in zip(ids, texts, translations)`
(src/translate.py lines 387-402). -/
def writeback_list (table pk col target : String) (st : ColRun) :
    List (Option String × String × String) → ColRun
  | [] => st
  | (rid, _src, trv) :: rest =>
      writeback_list table pk col target
        (writeback_row table pk col target st rid trv) rest

/-- Processing of one fetched page (src/translate.py lines 362-404): compute
the id list and the text list (`r[1] or ""`), translate each text with the
per-row translation function `f`, and run the write-back loop on the zip of
the three lists. -/
def process_page (f : String → String) (table pk col target : String)
    (st : ColRun) (page : List Row) : ColRun :=
  let ids := page.map (fun r => getCell r pk)
  let texts := page.map (fun r => (getCell r col).getD "")
  let translations := texts.map f
  writeback_list table pk col target st (ids.zip (texts.zip translations))

/-- The page SELECT (src/translate.py lines 346-357): the pending rows of the
current table state, paged by `LIMIT batch OFFSET offset`. -/
def fetch_page (rows : List Row) (col target : String) (batch offset : Nat) :
    List Row :=
  ((rows.filter (isPendingRow col target)).drop offset).take batch

/-- The page loop `while offset < total` of `translate_and_update`
(src/translate.py lines 344-407): fetch a page from the current state
(recording its offset and contents), stop on an empty page, otherwise process
it and advance the offset by exactly `batch`. -/
def column_loop (f : String → String) (table pk col target : String)
    (batch total : Nat) (st : ColRun) (offset : Nat) : ColRun :=
  if h : offset < total then
    let st1 : ColRun :=
      { st with pages := st.pages ++ [(offset, fetch_page st.rows col target batch offset)] }
    if hp : fetch_page st.rows col target batch offset = [] then st1
    else
      column_loop f table pk col target batch total
        (process_page f table pk col target st1 (fetch_page st.rows col target batch offset))
        (offset + batch)
  else st
termination_by total - offset
decreasing_by
  cases batch with
  | zero => exact absurd (by simp [fetch_page]) hp
  | succ k => omega

/-- Embedding of `detect_primary_key` (src/translate.py lines 141-146) on the column list
of a table: the first column whose `COLUMN_KEY` is `PRI`, else the first
column, else `None` when the table has no columns (in particular when the
table does not exist, since the INFORMATION_SCHEMA query then returns no
rows). -/
def detect_primary_key (cols : List TCol) : Option String :=
  match cols.find? (fun c => c.key = "PRI") with
  | some c => some c.name
  | none => cols.head?.map (fun c => c.name)

/-- Python falsiness of the detected primary key (`if not pk`,
src/translate.py line 318): `None` or the empty string. -/
def pkFalsy : Option String → Bool
  | none => true
  | some s => s == ""

/-- The diagnostic printed when a table is skipped for want of a primary key
(src/translate.py line 319). -/
def skipNoPkMsg (table : String) : String :=
  "表 " ++ table ++ " 无法检测到主键，跳过"

/-- Embedding of `add_target_column_if_needed` (src/translate.py lines 149-167): when the
schema already lists the destination column, do nothing; otherwise append it
(as a nullable LONGTEXT column) and issue one ALTER TABLE statement, returned
as the list of DDL statements executed.  Existing rows are untouched; the new
column reads as NULL through `getCell`. -/
def add_target_column_if_needed (tableName : String) (t : Table)
    (target_col : String) : Table × List String :=
  if t.cols.any (fun c => c.name = target_col) then (t, [])
  else
    ({ t with cols := t.cols ++ [{ name := target_col, dtype := "longtext", key := "" }] },
     ["ALTER TABLE " ++ quote_ident tableName ++ " ADD COLUMN "
        ++ quote_ident target_col ++ " LONGTEXT NULL"])

/-- Result of processing one (table, column) pair. -/
structure ColOut where
  table : Table
  ddl : List String
  counters : Counters
  upds : List UpdStmt
  pages : List (Nat × List Row)
  rowTrace : List (Option String)
deriving Repr, DecidableEq

/-- The per-column body of `translate_and_update` (src/translate.py lines
324-407): derive the destination column name `col + "_" + lang`, ensure it
exists, count the pending rows (the authoritative `total`), and run the page
loop from offset 0. -/
def process_column (f : String → String) (lang : String) (batch : Nat)
    (tableName pk : String) (t : Table) (col : String) : ColOut :=
  let target := col ++ "_" ++ lang
  let r1 := add_target_column_if_needed tableName t target
  let total := ((r1.1.rows.filter (isPendingRow col target)).length)
  let stFin := column_loop f tableName pk col target batch total
    { rows := r1.1.rows, ok := 0, fail := 0, upds := [], pages := [], rowTrace := [] } 0
  { table := { r1.1 with rows := stFin.rows },
    ddl := r1.2,
    counters := { total := total, ok := stFin.ok, fail := stFin.fail },
    upds := stFin.upds,
    pages := stFin.pages,
    rowTrace := stFin.rowTrace }

/-- Whole-run state of `translate_and_update`: the database (a named list of
tables), the DDL statements issued, the UPDATE statements executed, the
diagnostic log, and the summary in construction order. -/
structure RunState where
  db : List (String × Table)
  ddl : List String
  upds : List UpdStmt
  log : List String
  summary : List (String × List (String × Counters))
deriving Repr, DecidableEq

/-- Look a table up by name. -/
def dbGetTable : List (String × Table) → String → Option Table
  | [], _ => none
  | (n, t) :: rest, name => if n = name then some t else dbGetTable rest name

/-- Replace a table by name. -/
def dbSetTable (db : List (String × Table)) (name : String) (t : Table) :
    List (String × Table) :=
  db.map (fun p => if p.1 = name then (p.1, t) else p)

/-- Embedding of `list_table_columns` (src/translate.py lines 127-138) against the model
database: the column list of the named table, or `[]` when absent. -/
def tableCols (db : List (String × Table)) (name : String) : List TCol :=
  match dbGetTable db name with
  | none => []
  | some t => t.cols

/-- The `for col in cols` loop of `translate_and_update` (src/translate.py
lines 324-407): process each selected column in order against the current
database state, accumulating DDL and UPDATE traces and building the summary
entries of the table. -/
def process_cols (f : String → String) (lang : String) (batch : Nat)
    (tableName pk : String) (st : RunState) :
    List String → RunState × List (String × Counters)
  | [] => (st, [])
  | col :: rest =>
      let t := (dbGetTable st.db tableName).getD { cols := [], rows := [] }
      let out := process_column f lang batch tableName pk t col
      let st1 : RunState :=
        { st with db := dbSetTable st.db tableName out.table,
                  ddl := st.ddl ++ out.ddl,
                  upds := st.upds ++ out.upds }
      let pr := process_cols f lang batch tableName pk st1 rest
      (pr.1, (col, out.counters) :: pr.2)

/-- Core of `translate_and_update` (src/translate.py lines 303-409) over the
selections, parameterised by the per-row translation function `f` (the value
the inner try/except block appends for one source text): skip tables with an
empty column selection; skip, with a diagnostic, tables whose detected
primary key is falsy; otherwise process every selected column and record the
summary entry of the table. -/
def translate_and_update_core (f : String → String) (lang : String) (batch : Nat)
    (st : RunState) : List (String × List String) → RunState
  | [] => st
  | (table, cols) :: sel =>
      if cols = [] then translate_and_update_core f lang batch st sel
      else if pkFalsy (detect_primary_key (tableCols st.db table)) then
        translate_and_update_core f lang batch
          { st with log := st.log ++ [skipNoPkMsg table] } sel
      else
        let pk := (detect_primary_key (tableCols st.db table)).getD ""
        let pr := process_cols f lang batch table pk st cols
        translate_and_update_core f lang batch
          { pr.1 with summary := pr.1.summary ++ [(table, pr.2)] } sel

/-- The per-row translation try/except of `translate_and_update`
(src/translate.py lines 368-379), with the translator call (the `is_html`
dispatch to `translate_html` or `translate_batch`) abstracted as the oracle
`trf`: a raised exception is caught and contributes the empty string. -/
def rowTranslate (trf : String → Except String String) (txt : String) : String :=
  match trf txt with
  | .ok s => s
  | .error _ => ""

/-- Embedding of `translate_and_update` (src/translate.py lines 303-409) with the per-row
translator given as an exception-capable oracle. -/
def translate_and_update (trf : String → Except String String) (lang : String)
    (batch : Nat) (st : RunState) (selections : List (String × List String)) :
    RunState :=
  translate_and_update_core (rowTranslate trf) lang batch st selections

theorem pyStrip_empty : pyStrip "" = "" := rfl

theorem extractFrom_map_text (d : HDoc) :
    ∀ name attrs path idx,
      (extractFrom name attrs path idx d).map TextNode.text = leafTexts d := by
  induction d with
  | nil => intro name attrs path idx; simp [extractFrom, leafTexts]
  | textCons s r ih =>
      intro name attrs path idx
      by_cases hs : pyStrip s = "" <;> simp [extractFrom, leafTexts, hs, ih]
  | elemCons n2 a2 c r ihc ihr =>
      intro name attrs path idx
      simp [extractFrom, leafTexts, ihc, ihr]

theorem rebuildDoc_leafTexts (ts : List String) (d : HDoc) :
    ∀ (idx : Nat) (rest : List String), ts.drop idx = leafTexts d ++ rest →
      rebuildDoc ts idx d = (stripLeaves d, idx + (leafTexts d).length) := by
  induction d with
  | nil => intro idx rest h; simp [rebuildDoc, stripLeaves, leafTexts]
  | textCons s r ih =>
      intro idx rest h
      by_cases hs : pyStrip s = ""
      · have h2 : ts.drop idx = leafTexts r ++ rest := by simpa [leafTexts, hs] using h
        have hr := ih idx rest h2
        simp [rebuildDoc, hs, stripLeaves, leafTexts, hr]
      · have hcons : ts.drop idx = pyStrip s :: (leafTexts r ++ rest) := by
          simpa [leafTexts, hs] using h
        have hlt : idx < ts.length := by
          by_contra hge
          push_neg at hge
          rw [List.drop_eq_nil_of_le hge] at hcons
          simp at hcons
        have htail : ts.drop (idx + 1) = leafTexts r ++ rest := by
          have h3 := congrArg List.tail hcons
          simpa [List.tail_drop] using h3
        have h5 : ts[idx] = pyStrip s := by
          have h4 := List.drop_eq_getElem_cons hlt
          rw [h4] at hcons
          exact (List.cons.injEq _ _ _ _ ▸ hcons).1
        have hr := ih (idx + 1) rest htail
        simp [rebuildDoc, hs, hlt, hr, stripLeaves, leafTexts]
        exact ⟨h5, by omega⟩
  | elemCons n a c r ihc ihr =>
      intro idx rest h
      have h1 : ts.drop idx = leafTexts c ++ (leafTexts r ++ rest) := by
        simpa [leafTexts, List.append_assoc] using h
      have hc := ihc idx (leafTexts r ++ rest) h1
      have hdrop2 : ts.drop (idx + (leafTexts c).length) = leafTexts r ++ rest := by
        rw [← List.drop_drop, h1, List.drop_left]
      have hr := ihr (idx + (leafTexts c).length) rest hdrop2
      simp [rebuildDoc, hc, hr, stripLeaves, leafTexts]
      omega

theorem leavesStripped_stripLeaves (d : HDoc) (h : leavesStripped d = true) :
    stripLeaves d = d := by
  induction d with
  | nil => simp [stripLeaves]
  | textCons s r ih =>
      simp [leavesStripped] at h
      rcases h with ⟨h1, h2⟩
      rcases h1 with h1 | h1 <;> simp [stripLeaves, h1, ih h2]
  | elemCons n a c r ihc ihr =>
      simp [leavesStripped] at h
      simp [stripLeaves, ihc h.1, ihr h.2]

/-- Claim C1, counterexample: the round trip through `extract_text_nodes` and
`rebuild_html_from_nodes` is not the identity.  On `<p> hi </p>` extraction
stores the stripped value `hi`, and rebuilding replaces the whole text node
` hi ` by it, so the surrounding whitespace is lost. -/
theorem claim_C1_counterexample :
    rebuild_html_from_nodes (HDoc.elemCons "p" [] (HDoc.textCons " hi " HDoc.nil) HDoc.nil)
        ((extract_text_nodes
            (HDoc.elemCons "p" [] (HDoc.textCons " hi " HDoc.nil) HDoc.nil)).map TextNode.text)
      ≠ HDoc.elemCons "p" [] (HDoc.textCons " hi " HDoc.nil) HDoc.nil := by
  decide

/-- Claim C1, amended: reconstructing a document from the unmodified leaf
values produced by extraction yields the document with every extractable text
leaf replaced by its stripped value; in particular the round trip is the
identity whenever every text leaf already carries no surrounding whitespace
(or is whitespace-only). -/
theorem claim_C1_roundtrip (doc : HDoc) :
    rebuild_html_from_nodes doc ((extract_text_nodes doc).map TextNode.text)
      = stripLeaves doc
    ∧ (leavesStripped doc = true →
        rebuild_html_from_nodes doc ((extract_text_nodes doc).map TextNode.text) = doc) := by
  have hv : (extract_text_nodes doc).map TextNode.text = leafTexts doc :=
    extractFrom_map_text doc "[document]" [] "" 0
  have h0 : (leafTexts doc).drop 0 = leafTexts doc ++ [] := by simp
  have hmain := rebuildDoc_leafTexts (leafTexts doc) doc 0 [] h0
  refine ⟨?_, fun hstrip => ?_⟩
  · simp [rebuild_html_from_nodes, hv, hmain]
  · simp [rebuild_html_from_nodes, hv, hmain, leavesStripped_stripLeaves doc hstrip]

/-- Witness for claim C1: on a document whose single leaf is already
stripped, the round trip is the identity. -/
theorem claim_C1_roundtrip_witness :
    leavesStripped (HDoc.elemCons "p" [] (HDoc.textCons "hi" HDoc.nil) HDoc.nil) = true
    ∧ rebuild_html_from_nodes (HDoc.elemCons "p" [] (HDoc.textCons "hi" HDoc.nil) HDoc.nil)
        ((extract_text_nodes
            (HDoc.elemCons "p" [] (HDoc.textCons "hi" HDoc.nil) HDoc.nil)).map TextNode.text)
      = HDoc.elemCons "p" [] (HDoc.textCons "hi" HDoc.nil) HDoc.nil :=
  ⟨by decide, (claim_C1_roundtrip _).2 (by decide)⟩

theorem substLeavesSpec_snd (d : HDoc) :
    ∀ vs : List String, (substLeavesSpec vs d).2 = vs.drop (leafTexts d).length := by
  induction d with
  | nil => intro vs; simp [substLeavesSpec, leafTexts]
  | textCons s r ih =>
      intro vs
      by_cases hs : pyStrip s = ""
      · simp [substLeavesSpec, leafTexts, hs, ih]
      · cases vs with
        | nil => simp [substLeavesSpec, leafTexts, hs, ih]
        | cons v vs2 => simp [substLeavesSpec, leafTexts, hs, ih]
  | elemCons n a c r ihc ihr =>
      intro vs
      simp [substLeavesSpec, leafTexts, ihc, ihr, List.drop_drop]

theorem rebuildDoc_spec (ts : List String) (d : HDoc) :
    ∀ idx, idx ≤ ts.length →
      (rebuildDoc ts idx d).1 = (substLeavesSpec (ts.drop idx) d).1
      ∧ ts.drop (rebuildDoc ts idx d).2 = (substLeavesSpec (ts.drop idx) d).2
      ∧ idx ≤ (rebuildDoc ts idx d).2
      ∧ (rebuildDoc ts idx d).2 ≤ ts.length := by
  induction d with
  | nil => intro idx hle; simp [rebuildDoc, substLeavesSpec, hle]
  | textCons s r ih =>
      intro idx hle
      by_cases hs : pyStrip s = ""
      · have h1 := ih idx hle
        simp [rebuildDoc, substLeavesSpec, hs]
        exact ⟨h1.1, h1.2.1, h1.2.2.1, h1.2.2.2⟩
      · by_cases hlt : idx < ts.length
        · have hdrop := List.drop_eq_getElem_cons hlt
          have h1 := ih (idx + 1) (by omega)
          rw [hdrop]
          simp [rebuildDoc, substLeavesSpec, hs, hlt]
          exact ⟨h1.1, h1.2.1, by have := h1.2.2.1; omega, h1.2.2.2⟩
        · have hidx : ts.length ≤ idx := by omega
          have hdrop : ts.drop idx = [] := List.drop_eq_nil_of_le hidx
          have h1 := ih idx hle
          rw [hdrop] at h1 ⊢
          simp [rebuildDoc, substLeavesSpec, hs, hlt]
          exact ⟨h1.1, h1.2.1, h1.2.2.1, h1.2.2.2⟩
  | elemCons n a c r ihc ihr =>
      intro idx hle
      have hc := ihc idx hle
      have hr := ihr (rebuildDoc ts idx c).2 hc.2.2.2
      rw [hc.2.1] at hr
      simp [rebuildDoc, substLeavesSpec]
      exact ⟨⟨hc.1, hr.1⟩, hr.2.1, by
        have := hc.2.2.1
        have := hr.2.2.1
        omega, hr.2.2.2⟩

/-- Claim C6: when fewer values than extractable leaves are supplied,
`rebuild_html_from_nodes` replaces the first `len(V)` leaves in traversal
order by the corresponding values and leaves every later leaf at its original
text (this is exactly what the spec-modelled `substLeavesSpec` computes), all
supplied values being consumed; being a total function, it raises no
exception. -/
theorem claim_C6_short_values (doc : HDoc) (V : List String)
    (h : V.length < (extract_text_nodes doc).length) :
    rebuild_html_from_nodes doc V = (substLeavesSpec V doc).1
    ∧ (substLeavesSpec V doc).2 = [] := by
  have hspec := rebuildDoc_spec V doc 0 (Nat.zero_le _)
  have hlen : (extract_text_nodes doc).length = (leafTexts doc).length := by
    have hm := extractFrom_map_text doc "[document]" [] "" 0
    calc (extract_text_nodes doc).length
        = ((extractFrom "[document]" [] "" 0 doc).map TextNode.text).length := by
          simp [extract_text_nodes]
      _ = (leafTexts doc).length := by rw [hm]
  refine ⟨?_, ?_⟩
  · simpa [rebuild_html_from_nodes] using hspec.1
  · rw [substLeavesSpec_snd]
    exact List.drop_eq_nil_of_le (by omega)

/-- Witness for claim C6: a two-leaf document with a single supplied value. -/
theorem claim_C6_witness :
    (["X"] : List String).length
        < (extract_text_nodes
            (HDoc.elemCons "p" []
              (HDoc.textCons "a" (HDoc.textCons "b" HDoc.nil)) HDoc.nil)).length
    ∧ (rebuild_html_from_nodes
          (HDoc.elemCons "p" [] (HDoc.textCons "a" (HDoc.textCons "b" HDoc.nil)) HDoc.nil)
          ["X"]
        = (substLeavesSpec ["X"]
            (HDoc.elemCons "p" [] (HDoc.textCons "a" (HDoc.textCons "b" HDoc.nil)) HDoc.nil)).1
       ∧ (substLeavesSpec ["X"]
            (HDoc.elemCons "p" [] (HDoc.textCons "a" (HDoc.textCons "b" HDoc.nil)) HDoc.nil)).2
          = []) :=
  ⟨by decide, claim_C6_short_values _ _ (by decide)⟩

/-- Claim C8: `is_html` is false on absent and on empty text; on any text it
returns true exactly when the text contains both `<` and `>` and the parse
result contains at least one element; with the documented parses,
`is_html "<p>hi</p>"` is true and `is_html "a < b and b > c"` is false. -/
theorem claim_C8_is_html (parse : String → HDoc) (t : String)
    (h1 : parse "<p>hi</p>" = HDoc.elemCons "p" [] (HDoc.textCons "hi" HDoc.nil) HDoc.nil)
    (h2 : parse "a < b and b > c" = HDoc.textCons "a < b and b > c" HDoc.nil) :
    is_html parse none = false
    ∧ is_html parse (some "") = false
    ∧ is_html parse (some t)
        = ((t.data.contains '<' && t.data.contains '>') && hasElement (parse t))
    ∧ is_html parse (some "<p>hi</p>") = true
    ∧ is_html parse (some "a < b and b > c") = false := by
  refine ⟨rfl, rfl, ?_, ?_, ?_⟩
  · by_cases ht : t = ""
    · subst ht
      simp [is_html]
    · by_cases hc : (t.data.contains '<' && t.data.contains '>') = true
      · simp [is_html, ht, hc]
      · simp [is_html, ht, hc]
  · simp only [is_html]
    rw [if_neg (by decide), if_pos (by decide), h1]
    rfl
  · simp only [is_html]
    rw [if_neg (by decide), if_pos (by decide), h2]
    rfl

/-- Witness for claim C8: a concrete parser with the two documented parse
results. -/
theorem claim_C8_witness :
    ((fun s => if s = "<p>hi</p>" then
          HDoc.elemCons "p" [] (HDoc.textCons "hi" HDoc.nil) HDoc.nil
        else if s = "a < b and b > c" then
          HDoc.textCons "a < b and b > c" HDoc.nil
        else HDoc.nil) "<p>hi</p>"
        = HDoc.elemCons "p" [] (HDoc.textCons "hi" HDoc.nil) HDoc.nil)
    ∧ ((fun s => if s = "<p>hi</p>" then
          HDoc.elemCons "p" [] (HDoc.textCons "hi" HDoc.nil) HDoc.nil
        else if s = "a < b and b > c" then
          HDoc.textCons "a < b and b > c" HDoc.nil
        else HDoc.nil) "a < b and b > c"
        = HDoc.textCons "a < b and b > c" HDoc.nil)
    ∧ is_html (fun s => if s = "<p>hi</p>" then
          HDoc.elemCons "p" [] (HDoc.textCons "hi" HDoc.nil) HDoc.nil
        else if s = "a < b and b > c" then
          HDoc.textCons "a < b and b > c" HDoc.nil
        else HDoc.nil) (some "<p>hi</p>") = true :=
  ⟨by decide, by decide,
    (claim_C8_is_html _ "x" (by decide) (by decide)).2.2.2.1⟩

theorem translateAttempts_exhaust (resp : Nat → Resp) (retry n : Nat) :
    ∀ fuel attempt, retry - attempt ≤ fuel → attempt ≤ retry →
      (∀ a, attempt ≤ a → a < retry → isSuccess (resp a) = false) →
      translateAttempts resp retry n attempt = (List.replicate n "", retry) := by
  intro fuel
  induction fuel with
  | zero =>
      intro attempt hf hle hfail
      have heq : attempt = retry := by omega
      unfold translateAttempts
      simp [heq]
  | succ k ih =>
      intro attempt hf hle hfail
      by_cases hlt : attempt < retry
      · unfold translateAttempts
        cases hresp : resp attempt with
        | http status items =>
            have hs := hfail attempt le_rfl hlt
            rw [hresp] at hs
            simp [isSuccess] at hs
            simp [hlt, hresp, hs]
            exact ih (attempt + 1) (by omega) (by omega)
              (fun a ha hb => hfail a (by omega) hb)
        | exn m =>
            simp [hlt, hresp]
            exact ih (attempt + 1) (by omega) (by omega)
              (fun a ha hb => hfail a (by omega) hb)
      · have heq : attempt = retry := by omega
        unfold translateAttempts
        simp [heq]

theorem translateAttempts_length (resp : Nat → Resp) (retry n : Nat)
    (hwf : ∀ a, a < retry → ∀ status items, resp a = Resp.http status items →
      status = 200 → items.length = n) :
    ∀ fuel attempt, retry - attempt ≤ fuel →
      (translateAttempts resp retry n attempt).1.length = n := by
  intro fuel
  induction fuel with
  | zero =>
      intro attempt hf
      have hge : ¬ attempt < retry := by omega
      unfold translateAttempts
      simp [hge]
  | succ k ih =>
      intro attempt hf
      by_cases hlt : attempt < retry
      · unfold translateAttempts
        cases hresp : resp attempt with
        | http status items =>
            by_cases h200 : status = 200
            · simp [hlt, hresp, h200]
              exact hwf attempt hlt status items hresp h200
            · simp [hlt, hresp, h200]
              exact ih (attempt + 1) (by omega)
        | exn m =>
            simp [hlt, hresp]
            exact ih (attempt + 1) (by omega)
      · unfold translateAttempts
        simp [hlt]

theorem translateAttempts_firstSuccess (resp : Nat → Resp) (retry n : Nat) :
    ∀ fuel attempt j items, j - attempt ≤ fuel → attempt ≤ j → j < retry →
      (∀ b, attempt ≤ b → b < j → isSuccess (resp b) = false) →
      resp j = Resp.http 200 items →
      translateAttempts resp retry n attempt = (items.map firstTranslationText, j + 1) := by
  intro fuel
  induction fuel with
  | zero =>
      intro attempt j items hf hle hj hbefore hr
      have heq : attempt = j := by omega
      subst heq
      unfold translateAttempts
      simp [hj, hr]
  | succ k ih =>
      intro attempt j items hf hle hj hbefore hr
      by_cases heq : attempt = j
      · subst heq
        unfold translateAttempts
        simp [hj, hr]
      · have hlt : attempt < retry := by omega
        have hfb := hbefore attempt le_rfl (by omega)
        unfold translateAttempts
        cases hresp : resp attempt with
        | http status items2 =>
            rw [hresp] at hfb
            simp [isSuccess] at hfb
            simp [hlt, hresp, hfb]
            exact ih (attempt + 1) j items (by omega) (by omega) hj
              (fun b hb1 hb2 => hbefore b (by omega) hb2) hr
        | exn m =>
            simp [hlt, hresp]
            exact ih (attempt + 1) j items (by omega) (by omega) hj
              (fun b hb1 hb2 => hbefore b (by omega) hb2) hr

/-- Claim C4: for a non-empty text list, when every attempt yields a non-200
response or a transport exception, `translate_batch` performs exactly `retry`
POST calls, raises nothing (it is a total function), and returns a list of
exactly `len(texts)` empty strings. -/
theorem claim_C4_retry_exhaustion (resp : Nat → Resp) (retry : Nat)
    (texts : List String) (hne : texts ≠ [])
    (hfail : ∀ a, a < retry → isSuccess (resp a) = false) :
    translate_batchN resp retry texts = (List.replicate texts.length "", retry) := by
  have hE : texts.isEmpty = false := by
    cases texts with
    | nil => exact absurd rfl hne
    | cons a l => rfl
  simp only [translate_batchN, hE, Bool.false_eq_true, if_false]
  exact translateAttempts_exhaust resp retry texts.length (retry - 0) 0 le_rfl
    (Nat.zero_le _) (fun a _ hb => hfail a hb)

/-- Witness for claim C4: three attempts on a transport-failing oracle. -/
theorem claim_C4_witness :
    ((["a", "b"] : List String) ≠ [])
    ∧ (∀ a, a < 3 → isSuccess ((fun _ => Resp.exn "boom") a) = false)
    ∧ translate_batchN (fun _ => Resp.exn "boom") 3 ["a", "b"]
        = (List.replicate 2 "", 3) :=
  ⟨by decide, by decide,
    claim_C4_retry_exhaustion (fun _ => Resp.exn "boom") 3 ["a", "b"]
      (by decide) (by decide)⟩

/-- Claim C5: `translate_batch` preserves the length of its input (given the
documented service contract that a 200 response carries one item per input
text); the empty input yields `[]` with no network call; and when the first
successful attempt returns a 200 response, each output is the text of the
first translation of the corresponding item, or the empty string when the
item carries none. -/
theorem claim_C5_batch_shape (resp : Nat → Resp) (retry : Nat)
    (texts : List String)
    (hwf : ∀ a, a < retry → ∀ status items, resp a = Resp.http status items →
      status = 200 → items.length = texts.length) :
    (translate_batch resp retry texts).length = texts.length
    ∧ translate_batchN resp retry ([] : List String) = ([], 0)
    ∧ ∀ j items, j < retry → (∀ b, b < j → isSuccess (resp b) = false) →
        resp j = Resp.http 200 items → texts ≠ [] →
        translate_batch resp retry texts = items.map firstTranslationText := by
  refine ⟨?_, by simp [translate_batchN], ?_⟩
  · by_cases hne : texts.isEmpty
    · have : texts = [] := by simpa using hne
      subst this
      simp [translate_batch, translate_batchN]
    · simp only [translate_batch, translate_batchN, hne, Bool.false_eq_true, if_false]
      exact translateAttempts_length resp retry texts.length hwf (retry - 0) 0 le_rfl
  · intro j items hj hbefore hr hne
    have hE : texts.isEmpty = false := by
      cases texts with
      | nil => exact absurd rfl hne
      | cons a l => rfl
    simp only [translate_batch, translate_batchN, hE, Bool.false_eq_true, if_false]
    rw [translateAttempts_firstSuccess resp retry texts.length (j - 0) 0 j items
      le_rfl (Nat.zero_le _) hj (fun b _ hb2 => hbefore b hb2) hr]

/-- Witness for claim C5: one text, an immediate 200 response carrying one
translation. -/
theorem claim_C5_witness :
    (∀ a, a < 3 → ∀ status items,
        (fun _ => Resp.http 200 [[some "X"]]) a = Resp.http status items →
        status = 200 → items.length = (["t"] : List String).length)
    ∧ (translate_batch (fun _ => Resp.http 200 [[some "X"]]) 3 ["t"]).length = 1
    ∧ translate_batchN (fun _ => Resp.http 200 [[some "X"]]) 3 ([] : List String) = ([], 0) :=
  have hwf : ∀ a, a < 3 → ∀ status items,
      (fun _ => Resp.http 200 [[some "X"]]) a = Resp.http status items →
      status = 200 → items.length = (["t"] : List String).length := by
    intro a ha status items heq h200
    cases heq
    rfl
  ⟨hwf, (claim_C5_batch_shape (fun _ => Resp.http 200 [[some "X"]]) 3 ["t"] hwf).1,
    (claim_C5_batch_shape (fun _ => Resp.http 200 [[some "X"]]) 3 ["t"] hwf).2.1⟩

theorem getCell_setCell_self (r : Row) (c : String) (v : Option String) :
    getCell (setCell r c v) c = v := by
  induction r with
  | nil => simp [setCell, getCell]
  | cons kv rest ih =>
      obtain ⟨k, w⟩ := kv
      by_cases hk : k = c
      · simp [setCell, getCell, hk]
      · simp [setCell, getCell, hk, ih]

theorem getCell_setCell_ne (r : Row) (c c2 : String) (v : Option String)
    (h : c2 ≠ c) : getCell (setCell r c v) c2 = getCell r c2 := by
  induction r with
  | nil => simp [setCell, getCell, Ne.symm h]
  | cons kv rest ih =>
      obtain ⟨k, w⟩ := kv
      by_cases hk : k = c
      · subst hk
        simp [setCell, getCell, Ne.symm h]
      · simp [setCell, getCell, hk, ih]

/-- Claim C2: in the write-back loop of `translate_and_update`, a row counts
as ok exactly when its translated value is non-empty after stripping; in that
case one single UPDATE statement is recorded whose SET clause assigns the
same translated value to both the destination and the source column, and
every row matching the primary key ends with both columns equal to that
value; otherwise nothing is recorded, no row is modified, and every
previously pending row is still present and pending. -/
theorem claim_C2_row_outcome (table pk col target : String) (htc : target ≠ col)
    (st : ColRun) (rid : Option String) (trv : String) :
    ((writeback_row table pk col target st rid trv).ok = st.ok + 1 ↔ pyStrip trv ≠ "")
    ∧ ((writeback_row table pk col target st rid trv).fail = st.fail + 1 ↔ pyStrip trv = "")
    ∧ (pyStrip trv ≠ "" →
        (writeback_row table pk col target st rid trv).upds
            = st.upds ++ [{ table := table, sets := [(target, trv), (col, trv)],
                            whereCol := pk, whereVal := rid }]
        ∧ (writeback_row table pk col target st rid trv).rows
            = st.rows.map (fun r =>
                if cellEq (getCell r pk) rid then
                  setCell (setCell r target (some trv)) col (some trv)
                else r)
        ∧ ∀ r : Row, cellEq (getCell r pk) rid = true →
            getCell (setCell (setCell r target (some trv)) col (some trv)) target = some trv
            ∧ getCell (setCell (setCell r target (some trv)) col (some trv)) col = some trv)
    ∧ (pyStrip trv = "" →
        (writeback_row table pk col target st rid trv).rows = st.rows
        ∧ (writeback_row table pk col target st rid trv).upds = st.upds
        ∧ ∀ r ∈ st.rows, isPendingRow col target r = true →
            r ∈ (writeback_row table pk col target st rid trv).rows
            ∧ isPendingRow col target r = true) := by
  by_cases hs : pyStrip trv = ""
  · have hcond : ¬(trv ≠ "" ∧ pyStrip trv ≠ "") := fun hc => hc.2 hs
    refine ⟨?_, ?_, fun hne => absurd hs hne, fun _ => ⟨?_, ?_, fun r hr hp => ⟨?_, hp⟩⟩⟩
    · simp [writeback_row, hcond, hs]
    · simp [writeback_row, hcond, hs]
    · simp [writeback_row, hcond]
    · simp [writeback_row, hcond]
    · simpa [writeback_row, hcond] using hr
  · have hne : trv ≠ "" := fun he => hs (by rw [he]; exact pyStrip_empty)
    have hcond : trv ≠ "" ∧ pyStrip trv ≠ "" := ⟨hne, hs⟩
    refine ⟨?_, ?_, fun _ => ⟨?_, ?_, fun r _ => ⟨?_, ?_⟩⟩, fun he => absurd he hs⟩
    · simp [writeback_row, hcond, hs]
    · simp [writeback_row, hcond, hs]
    · simp [writeback_row, hcond]
    · simp [writeback_row, hcond]
    · rw [getCell_setCell_ne _ col target _ htc, getCell_setCell_self]
    · rw [getCell_setCell_self]

/-- Witness for claim C2: a successful row write on a one-row table. -/
theorem claim_C2_witness :
    (("title_de" : String) ≠ "title")
    ∧ ((writeback_row "doc" "id" "title" "title_de"
          { rows := [[("id", some "1"), ("title", some "World")]],
            ok := 0, fail := 0, upds := [], pages := [], rowTrace := [] }
          (some "1") "Welt").ok
        = ({ rows := [[("id", some "1"), ("title", some "World")]],
             ok := 0, fail := 0, upds := [], pages := [], rowTrace := [] } : ColRun).ok + 1
      ↔ pyStrip "Welt" ≠ "") :=
  ⟨by decide,
    (claim_C2_row_outcome "doc" "id" "title" "title_de" (by decide)
      { rows := [[("id", some "1"), ("title", some "World")]],
        ok := 0, fail := 0, upds := [], pages := [], rowTrace := [] }
      (some "1") "Welt").1⟩

/-- Claim C9: destination-column provisioning is idempotent.  Two successive
calls of `add_target_column_if_needed` on the same (table, destination
column) pair issue at most one ALTER TABLE statement, and none at all when
the column already exists in the schema. -/
theorem claim_C9_ddl_idempotent (tableName : String) (t : Table) (target_col : String) :
    ((add_target_column_if_needed tableName t target_col).2
      ++ (add_target_column_if_needed tableName
            (add_target_column_if_needed tableName t target_col).1 target_col).2).length ≤ 1
    ∧ (t.cols.any (fun c => c.name = target_col) = true →
        (add_target_column_if_needed tableName t target_col).2 = []
        ∧ (add_target_column_if_needed tableName
            (add_target_column_if_needed tableName t target_col).1 target_col).2 = []) := by
  by_cases hex : t.cols.any (fun c => c.name = target_col) = true
  · simp [add_target_column_if_needed, hex]
  · have h2 : ((t.cols ++ [({ name := target_col, dtype := "longtext", key := "" } : TCol)]).any
        (fun c => c.name = target_col)) = true := by
      simp
    simp [add_target_column_if_needed, hex, h2]

/-- Witness for claim C9: the destination column already exists, so no DDL
is issued by either call. -/
theorem claim_C9_witness :
    ((Table.mk [TCol.mk "title_de" "longtext" ""] []).cols.any
        (fun c => c.name = "title_de") = true)
    ∧ ((add_target_column_if_needed "doc"
          (Table.mk [TCol.mk "title_de" "longtext" ""] []) "title_de").2 = []
       ∧ (add_target_column_if_needed "doc"
            (add_target_column_if_needed "doc"
              (Table.mk [TCol.mk "title_de" "longtext" ""] []) "title_de").1 "title_de").2
          = []) :=
  ⟨by decide,
    (claim_C9_ddl_idempotent "doc" (Table.mk [TCol.mk "title_de" "longtext" ""] [])
      "title_de").2 (by decide)⟩

/-- Claim C3: a selected table with a non-empty column list whose primary key
cannot be detected is skipped entirely — no DDL, no reads, no writes, no
summary entry for it — with only the diagnostic appended to the log, and the
remaining selections are processed from the unchanged state. -/
theorem claim_C3_skip_no_pk (trf : String → Except String String) (lang : String)
    (batch : Nat) (st : RunState) (table : String) (cols : List String)
    (sel : List (String × List String)) (hcols : cols ≠ [])
    (hpk : detect_primary_key (tableCols st.db table) = none) :
    translate_and_update trf lang batch st ((table, cols) :: sel)
      = translate_and_update trf lang batch
          { st with log := st.log ++ [skipNoPkMsg table] } sel := by
  simp [translate_and_update, translate_and_update_core, hcols, hpk, pkFalsy]

/-- Witness for claim C3: a selection that names a table absent from the
database, whose column list is therefore empty and no primary key is found. -/
theorem claim_C3_witness :
    ((["title"] : List String) ≠ [])
    ∧ detect_primary_key (tableCols ([] : List (String × Table)) "doc") = none
    ∧ translate_and_update (fun _ => Except.ok "x") "de" 10
        { db := [], ddl := [], upds := [], log := [], summary := [] }
        [("doc", ["title"])]
      = translate_and_update (fun _ => Except.ok "x") "de" 10
          { db := [], ddl := [], upds := [],
            log := [] ++ [skipNoPkMsg "doc"], summary := [] } [] :=
  ⟨by decide, by decide,
    claim_C3_skip_no_pk (fun _ => Except.ok "x") "de" 10
      { db := [], ddl := [], upds := [], log := [], summary := [] }
      "doc" ["title"] [] (by decide) (by decide)⟩

/-- Claim C10: a per-row translation exception is caught by
`translate_and_update` and treated exactly like an empty-string translation
(so the row counts as fail and no write is attempted for it), and the run is
otherwise unaffected: replacing an exception-raising oracle by one returning
the empty string at the failing texts yields the identical run result, so an
exception never propagates and never aborts the page or the run. -/
theorem claim_C10_exception_swallowed (o1 o2 : String → Except String String)
    (hrel : ∀ s, o1 s = o2 s ∨ ((∃ e, o1 s = Except.error e) ∧ o2 s = Except.ok ""))
    (lang : String) (batch : Nat) (st : RunState) (sel : List (String × List String)) :
    translate_and_update o1 lang batch st sel = translate_and_update o2 lang batch st sel
    ∧ ∀ s e, o1 s = Except.error e → rowTranslate o1 s = "" := by
  have hfun : rowTranslate o1 = rowTranslate o2 := by
    funext s
    rcases hrel s with h | ⟨⟨e, he⟩, h2⟩
    · simp [rowTranslate, h]
    · simp [rowTranslate, he, h2]
  refine ⟨by simp [translate_and_update, hfun], ?_⟩
  intro s e he
  simp [rowTranslate, he]

/-- Witness for claim C10: an always-raising oracle against the
always-empty-translation oracle. -/
theorem claim_C10_witness :
    (∀ s : String,
      (fun _ => (Except.error "boom" : Except String String)) s
          = (fun _ => (Except.ok "" : Except String String)) s
        ∨ ((∃ e, (fun _ => (Except.error "boom" : Except String String)) s = Except.error e)
           ∧ (fun _ => (Except.ok "" : Except String String)) s = Except.ok ""))
    ∧ translate_and_update (fun _ => Except.error "boom") "de" 10
        { db := [], ddl := [], upds := [], log := [], summary := [] } [("doc", ["title"])]
      = translate_and_update (fun _ => Except.ok "") "de" 10
          { db := [], ddl := [], upds := [], log := [], summary := [] } [("doc", ["title"])] :=
  ⟨fun _ => Or.inr ⟨⟨"boom", rfl⟩, rfl⟩,
    (claim_C10_exception_swallowed (fun _ => Except.error "boom") (fun _ => Except.ok "")
      (fun _ => Or.inr ⟨⟨"boom", rfl⟩, rfl⟩) "de" 10
      { db := [], ddl := [], upds := [], log := [], summary := [] }
      [("doc", ["title"])]).1⟩

theorem writeback_list_pages (table pk col target : String) :
    ∀ (l : List (Option String × String × String)) (st : ColRun),
      (writeback_list table pk col target st l).pages = st.pages
      ∧ (writeback_list table pk col target st l).rowTrace
          = st.rowTrace ++ l.map Prod.fst := by
  intro l
  induction l with
  | nil => intro st; simp [writeback_list]
  | cons x rest ih =>
      intro st
      obtain ⟨rid, src, trv⟩ := x
      have hpg : (writeback_row table pk col target st rid trv).pages = st.pages := by
        by_cases hc : trv ≠ "" ∧ pyStrip trv ≠ "" <;> simp [writeback_row, hc]
      have htr : (writeback_row table pk col target st rid trv).rowTrace
          = st.rowTrace ++ [rid] := by
        by_cases hc : trv ≠ "" ∧ pyStrip trv ≠ "" <;> simp [writeback_row, hc]
      have h := ih (writeback_row table pk col target st rid trv)
      refine ⟨?_, ?_⟩
      · simp only [writeback_list]
        rw [h.1, hpg]
      · simp only [writeback_list]
        rw [h.2, htr]
        simp

theorem process_page_pages (f : String → String) (table pk col target : String)
    (st : ColRun) (page : List Row) :
    (process_page f table pk col target st page).pages = st.pages
    ∧ (process_page f table pk col target st page).rowTrace
        = st.rowTrace ++ page.map (fun r => getCell r pk) := by
  have h := writeback_list_pages table pk col target
    ((page.map (fun r => getCell r pk)).zip
      ((page.map (fun r => (getCell r col).getD "")).zip
        ((page.map (fun r => (getCell r col).getD "")).map f))) st
  have hfst : ((page.map (fun r => getCell r pk)).zip
      ((page.map (fun r => (getCell r col).getD "")).zip
        ((page.map (fun r => (getCell r col).getD "")).map f))).map Prod.fst
      = page.map (fun r => getCell r pk) := by
    apply List.map_fst_zip
    simp
  refine ⟨?_, ?_⟩
  · simpa [process_page] using h.1
  · have h2 := h.2
    rw [hfst] at h2
    simpa [process_page] using h2

theorem column_loop_trace (f : String → String) (table pk col target : String)
    (batch total : Nat) :
    ∀ fuel offset st, total - offset ≤ fuel →
      ∃ new : List (Nat × List Row),
        (column_loop f table pk col target batch total st offset).pages
            = st.pages ++ new
        ∧ new.map Prod.fst = (List.range new.length).map (fun i => offset + i * batch)
        ∧ (∀ p ∈ new, p.1 < total)
        ∧ (column_loop f table pk col target batch total st offset).rowTrace
            = st.rowTrace ++ ((new.map Prod.snd).flatten).map (fun r => getCell r pk) := by
  intro fuel
  induction fuel with
  | zero =>
      intro offset st hf
      have hge : ¬ offset < total := by omega
      refine ⟨[], ?_, ?_, ?_, ?_⟩ <;>
        simp [column_loop, hge]
  | succ k ih =>
      intro offset st hf
      by_cases hlt : offset < total
      · by_cases hp : fetch_page st.rows col target batch offset = []
        · refine ⟨[(offset, fetch_page st.rows col target batch offset)], ?_, ?_, ?_, ?_⟩
          · rw [column_loop]
            simp [hlt, hp]
          · simp [List.range_succ]
          · intro p hmem
            simp at hmem
            subst hmem
            exact hlt
          · rw [column_loop]
            simp [hlt, hp]
        · have hbatch : batch ≠ 0 := by
            intro hb
            subst hb
            exact hp (by simp [fetch_page])
          have hL : column_loop f table pk col target batch total st offset
              = column_loop f table pk col target batch total
                  (process_page f table pk col target
                    { st with pages :=
                        st.pages ++ [(offset, fetch_page st.rows col target batch offset)] }
                    (fetch_page st.rows col target batch offset)) (offset + batch) := by
            rw [column_loop]
            simp [hlt, hp]
          have hpp := process_page_pages f table pk col target
            { st with pages :=
                st.pages ++ [(offset, fetch_page st.rows col target batch offset)] }
            (fetch_page st.rows col target batch offset)
          obtain ⟨new2, hpg, hoff, hbound, htr⟩ := ih (offset + batch)
            (process_page f table pk col target
              { st with pages :=
                  st.pages ++ [(offset, fetch_page st.rows col target batch offset)] }
              (fetch_page st.rows col target batch offset)) (by omega)
          refine ⟨(offset, fetch_page st.rows col target batch offset) :: new2,
            ?_, ?_, ?_, ?_⟩
          · rw [hL, hpg, hpp.1]
            simp
          · simp only [List.map_cons, List.length_cons]
            rw [hoff, List.range_succ_eq_map]
            simp only [List.map_cons, List.map_map]
            congr 1
            · simp
            · apply List.map_congr_left
              intro a _
              simp [Function.comp, Nat.succ_mul]
              omega
          · intro p hmem
            rcases List.mem_cons.mp hmem with hh | hh
            · rw [hh]
              exact hlt
            · exact hbound p hh
          · rw [hL, htr, hpp.2]
            simp
      · refine ⟨[], ?_, ?_, ?_, ?_⟩ <;> simp [column_loop, hlt]

theorem column_loop_run (f : String → String) (table pk col target : String)
    (batch total : Nat) (rows : List Row) (hb : 0 < batch) :
    ((column_loop f table pk col target batch total
        { rows := rows, ok := 0, fail := 0, upds := [], pages := [], rowTrace := [] }
        0).pages.map Prod.fst
      = (List.range (column_loop f table pk col target batch total
          { rows := rows, ok := 0, fail := 0, upds := [], pages := [], rowTrace := [] }
          0).pages.length).map (fun i => i * batch))
    ∧ (∀ p ∈ (column_loop f table pk col target batch total
        { rows := rows, ok := 0, fail := 0, upds := [], pages := [], rowTrace := [] }
        0).pages, p.1 < total)
    ∧ List.Chain' (· < ·)
        ((column_loop f table pk col target batch total
          { rows := rows, ok := 0, fail := 0, upds := [], pages := [], rowTrace := [] }
          0).pages.map Prod.fst)
    ∧ (column_loop f table pk col target batch total
        { rows := rows, ok := 0, fail := 0, upds := [], pages := [], rowTrace := [] }
        0).rowTrace
      = (((column_loop f table pk col target batch total
          { rows := rows, ok := 0, fail := 0, upds := [], pages := [], rowTrace := [] }
          0).pages.map Prod.snd).flatten).map (fun r => getCell r pk) := by
  obtain ⟨new, hpg, hoff, hbound, htr⟩ := column_loop_trace f table pk col target
    batch total total 0
    { rows := rows, ok := 0, fail := 0, upds := [], pages := [], rowTrace := [] }
    (by omega)
  simp only [List.nil_append] at hpg htr
  have hoff2 : new.map Prod.fst = (List.range new.length).map (fun i => i * batch) := by
    rw [hoff]
    apply List.map_congr_left
    intro a _
    omega
  refine ⟨?_, ?_, ?_, ?_⟩
  · rw [hpg, hoff2]
  · rw [hpg]
    exact hbound
  · rw [hpg, hoff2]
    apply List.Pairwise.chain'
    refine List.Pairwise.map _ ?_ (List.pairwise_lt_range _)
    intro a b hab
    exact (Nat.mul_lt_mul_right hb).mpr hab
  · rw [hpg, htr]

/-- Claim C7: in the per-column loop of `translate_and_update`, the page
offset starts at 0 and advances by exactly `batch` after every page
regardless of per-row outcomes (the recorded offsets form the arithmetic
progression 0, batch, 2·batch, ...), every page is issued while its offset is
below the authoritative pending total, offsets are strictly ascending, and
the rows processed by the write-back loop are exactly the concatenation of
the fetched pages in fetch order, with no reordering. -/
theorem claim_C7_pagination (f : String → String) (lang : String) (batch : Nat)
    (tableName pk : String) (t : Table) (col : String) (hb : 0 < batch) :
    ((process_column f lang batch tableName pk t col).pages.map Prod.fst
      = (List.range (process_column f lang batch tableName pk t col).pages.length).map
          (fun i => i * batch))
    ∧ (∀ p ∈ (process_column f lang batch tableName pk t col).pages,
        p.1 < (process_column f lang batch tableName pk t col).counters.total)
    ∧ List.Chain' (· < ·)
        ((process_column f lang batch tableName pk t col).pages.map Prod.fst)
    ∧ (process_column f lang batch tableName pk t col).rowTrace
      = (((process_column f lang batch tableName pk t col).pages.map Prod.snd).flatten).map
          (fun r => getCell r pk) := by
  simp only [process_column]
  exact column_loop_run f tableName pk col (col ++ "_" ++ lang) batch _ _ hb

/-- Witness for claim C7: the offset trace of a concrete column run is the
arithmetic progression with step 10. -/
theorem claim_C7_witness :
    (0 : Nat) < 10
    ∧ ((process_column (fun s => s) "de" 10 "doc" "id"
          { cols := [], rows := [] } "title").pages.map Prod.fst
        = (List.range (process_column (fun s => s) "de" 10 "doc" "id"
            { cols := [], rows := [] } "title").pages.length).map (fun i => i * 10)) :=
  ⟨by decide,
    (claim_C7_pagination (fun s => s) "de" 10 "doc" "id"
      { cols := [], rows := [] } "title" (by decide)).1⟩
